import Mathlib

/-!
Verification of the PyTree repository (`src/tree.py`).

The file shallowly embeds the two container classes of the source,
`NonTerminalNode` and `BiDirectionalLookupNonTerminalNode`, as explicit
state-passing functions over a state record, and proves or refutes the
frozen claims about them.

Modelling conventions:
* A slot of the Python child list is `Option Child`: `none` models the Python
  `None` placeholder, `some c` an actual child object.
* `Child.node i` models a child object that has a settable `parent`
  attribute; `Child.leaf i` models a plain value without one (so
  `_set_parent` silently does nothing on it, as the `except AttributeError`
  branch of the source does).
* The reverse-lookup dictionary `self.__indices` is an association list
  keyed by `Option Child` (the source can and does store `None` keys, e.g.
  in the constructor's index-building loop) with integer values.
* Parent back-references of all child objects are modelled by one function
  `parentOf : Child → Option Ref`; `Ref.selfRef` denotes the container whose
  state is being stepped, `Ref.other k` any other container.
* Python raises an exception after the mutations performed so far have taken
  effect, so fallible operations return the post-state together with
  `Option PyErr` (the state at raise time when the error is `some _`).
-/

namespace PyTree

/-- A parent reference: the container under consideration (`selfRef`) or some
other container object (`other k`). -/
inductive Ref where
  | selfRef
  | other (k : ℕ)
deriving DecidableEq

/-- A child object. `node i` has a settable `parent` attribute, `leaf i`
does not (e.g. a string child). -/
inductive Child where
  | node (id : ℕ)
  | leaf (id : ℕ)
deriving DecidableEq

/-- The reverse-lookup dictionary `self.__indices` of the source, as an
association list from slot values to integer positions. The source stores
`None` keys in some code paths, so keys are `Option Child`. -/
abbrev Dict := List (Option Child × ℤ)

/-- Python `d[k]` lookup returning `none` when the key is absent. -/
def dictGet : Dict → Option Child → Option ℤ
  | [], _ => none
  | (k2, v) :: rest, k => if k2 = k then some v else dictGet rest k

/-- Python `d[k] = v`: replace the entry of `k` if present, else add one. -/
def dictSet : Dict → Option Child → ℤ → Dict
  | [], k, v => [(k, v)]
  | (k2, v2) :: rest, k, v =>
    if k2 = k then (k, v) :: rest else (k2, v2) :: dictSet rest k v

/-- `BiDirectionalLookupNonTerminalNode.__delete_from_indices`: Python
`del d[k]` with the `KeyError` caught and ignored, so absent keys are a
no-op. -/
def dictDelSafe : Dict → Option Child → Dict
  | [], _ => []
  | (k2, v2) :: rest, k =>
    if k2 = k then rest else (k2, v2) :: dictDelSafe rest k

/-- `_set_parent(child, parent)` of the source: sets the `parent` attribute,
silently doing nothing when the child has none (`None` or a plain value,
caught by `except AttributeError`). -/
def setParentFn (pm : Child → Option Ref) (c : Option Child) (p : Option Ref) :
    Child → Option Ref :=
  match c with
  | some (Child.node i) => fun x => if x = Child.node i then p else pm x
  | _ => pm

/-- The `for child in iterable: _set_parent(child, parent)` loops of the
source, applied left to right. -/
def setParents (pm : Child → Option Ref) : List (Option Child) → Option Ref →
    Child → Option Ref
  | [], _ => pm
  | c :: rest, p => setParents (setParentFn pm c p) rest p

/-- The `for index, item in enumerate(...): self.__indices[item] = index + base`
loops of the source (constructor, `__iadd__`, `sort`, `reverse`), applied
left to right with a running counter. -/
def enumAssign (d : Dict) : List (Option Child) → ℕ → Dict
  | [], _ => d
  | c :: rest, n => enumAssign (dictSet d c (n : ℤ)) rest (n + 1)

/-- `_is_assigned(idx, seq)` of the source: the index is within the length
and the element there is not `None`. -/
def isAssigned (idx : ℕ) (seq : List (Option Child)) : Bool :=
  if seq.length ≤ idx then false
  else (seq.getD idx none).isSome

/-- Python 2 slice-index normalisation: a negative index has the length
added, then the result is clamped to `[0, n]`. -/
def sliceIdx (n : ℕ) (i : ℤ) : ℕ :=
  (min (max (if i < 0 then i + n else i) 0) (n : ℤ)).toNat

/-- Python 2 `l[i:j]` (`list.__getslice__` semantics): both bounds
normalised, the effective range being `[i', max i' j')`. -/
def listGetSlice (l : List (Option Child)) (i j : ℤ) : List (Option Child) :=
  (l.drop (sliceIdx l.length i)).take
    (max (sliceIdx l.length i) (sliceIdx l.length j) - sliceIdx l.length i)

/-- Python `list.insert(index, a)` for a non-negative index: positions at or
after `index` shift up; an index beyond the length appends. -/
def pyListInsert (l : List (Option Child)) (index : ℕ) (a : Option Child) :
    List (Option Child) :=
  l.take index ++ a :: l.drop index

/-- Python item-index normalisation for `l[i]` / `del l[i]` / `l.pop(i)`:
a negative index has the length added; the result must fall in `[0, n)`,
otherwise `IndexError` (modelled by `none`). -/
def pyNormIdx (n : ℕ) (i : ℤ) : Option ℕ :=
  let i2 := if i < 0 then i + n else i
  if 0 ≤ i2 ∧ i2 < n then some i2.toNat else none

/-- The exceptions raised by the source. -/
inductive PyErr where
  | indexError
  | keyError
  | typeError
  | notImplementedError
deriving DecidableEq

/-- State of a `BiDirectionalLookupNonTerminalNode` object: its own `parent`
attribute, the underlying list of slots, the reverse-lookup dictionary
`self.__indices`, `self.__last_automatically_added_index`, and the parent
attributes of all child objects. -/
structure BState where
  parent : Option Ref
  children : List (Option Child)
  indices : Dict
  lastAutomaticallyAddedIndex : ℤ
  parentOf : Child → Option Ref

namespace BiDirectionalLookupNonTerminalNode

/-- `BiDirectionalLookupNonTerminalNode.__init__(parent, initial_children)`:
stores the parent, copies the children, sets each child's parent attribute
(`NonTerminalNode.__init__`), builds the index map by enumeration (note:
this records entries for `None` slots too, exactly as the source loop does),
and initialises the auto-index to `-1`. `pm0` is the ambient parent
attribute of every child object before construction. -/
def init (pm0 : Child → Option Ref) (parent : Option Ref)
    (initialChildren : List (Option Child)) : BState :=
  { parent := parent
    children := initialChildren
    indices := enumAssign [] initialChildren 0
    lastAutomaticallyAddedIndex := -1
    parentOf := setParents pm0 initialChildren (some Ref.selfRef) }

/-- The loop body of `__update_dict_indices`: for each item of the slice,
`self.__indices[item] += shift_value`; an absent key raises `KeyError`,
leaving the increments already performed in place. -/
def updLoop : Dict → List (Option Child) → ℤ → Dict × Option PyErr
  | d, [], _ => (d, none)
  | d, item :: rest, shift =>
    match dictGet d item with
    | none => (d, some PyErr.keyError)
    | some v => updLoop (dictSet d item (v + shift)) rest shift

/-- `__update_dict_indices(start, stop, shift_value)`: fetches the slice
`[start:stop]` of the current list and shifts the dictionary entry of each
item in it. -/
def updateDictIndices (d : Dict) (children : List (Option Child))
    (start stop shift : ℤ) : Dict × Option PyErr :=
  updLoop d (listGetSlice children start stop) shift

/-- `__ensure_valid_index(index)`: append `None` slots (via the base-layer
`append`, whose `_set_parent(None, self)` is a no-op) until the index is
within the length. -/
def ensureValidIndex (children : List (Option Child)) (index : ℕ) :
    List (Option Child) :=
  children ++ List.replicate (index + 1 - children.length) none

/-- The scanning loop of `__get_next_free_index`, starting at `start` with
enough fuel to pass the end of the list (every index at or past the length
is unassigned, so `children.length` steps always suffice). -/
def getNextFreeIndexFrom (children : List (Option Child)) :
    ℕ → ℕ → ℕ
  | start, 0 => start
  | start, fuel + 1 =>
    if isAssigned start children then getNextFreeIndexFrom children (start + 1) fuel
    else start

/-- `__get_next_free_index()`: first unassigned index scanning forward from
`self.__last_automatically_added_index + 1`. -/
def getNextFreeIndex (s : BState) : ℕ :=
  getNextFreeIndexFrom s.children (s.lastAutomaticallyAddedIndex + 1).toNat
    s.children.length

/-- `BiDirectionalLookupNonTerminalNode.__setitem__(index, child)` for a
non-negative index. Within bounds: the base layer stores the child and sets
its parent, the replacee's entry is purged, then `indices[child] = index`.
Otherwise: the list is padded with `None` up to `index` and the child stored
with its parent set — the source's `else` branch never records
`indices[child]`. -/
def setitem (s : BState) (index : ℕ) (child : Option Child) : BState :=
  if index < s.children.length then
    let replacee := s.children.getD index none
    { s with
      children := s.children.set index child
      parentOf := setParentFn s.parentOf child (some Ref.selfRef)
      indices := dictSet (dictDelSafe s.indices replacee) child (index : ℤ) }
  else
    let padded := ensureValidIndex s.children index
    { s with
      children := padded.set index child
      parentOf := setParentFn s.parentOf child (some Ref.selfRef) }

/-- `BiDirectionalLookupNonTerminalNode.__delitem__(index)`: look the
deletee up (`IndexError` on a bad index), physically delete it and clear its
parent (`NonTerminalNode.__delitem__`), purge its dictionary entry, then
call `__update_dict_indices(index+1, len(self), -1)` on the already
shortened list. -/
def delitem (s : BState) (index : ℤ) : BState × Option PyErr :=
  match pyNormIdx s.children.length index with
  | none => (s, some PyErr.indexError)
  | some i =>
    let deletee := s.children.getD i none
    let s2 : BState :=
      { s with
        children := s.children.eraseIdx i
        parentOf := setParentFn s.parentOf deletee none
        indices := dictDelSafe s.indices deletee }
    let r := updateDictIndices s2.indices s2.children (index + 1)
      (s2.children.length : ℤ) (-1)
    ({ s2 with indices := r.1 }, r.2)

/-- `BiDirectionalLookupNonTerminalNode.append(child)`: compute the next
free index, assign through `self[index] = child`, and remember it as the
last automatically added index. -/
def append (s : BState) (child : Option Child) : BState :=
  let index := getNextFreeIndex s
  let s2 := setitem s index child
  { s2 with lastAutomaticallyAddedIndex := (index : ℤ) }

/-- `BiDirectionalLookupNonTerminalNode.index(child)`: dictionary lookup,
`KeyError` when absent. -/
def index (s : BState) (item : Option Child) : Except PyErr ℤ :=
  match dictGet s.indices item with
  | none => Except.error PyErr.keyError
  | some v => Except.ok v

/-- `BiDirectionalLookupNonTerminalNode.remove(item)`: look the item's
position up in the dictionary (`KeyError` when absent) and delegate to
`del self[index]`. -/
def remove (s : BState) (item : Option Child) : BState × Option PyErr :=
  match dictGet s.indices item with
  | none => (s, some PyErr.keyError)
  | some idx => delitem s idx

end BiDirectionalLookupNonTerminalNode

/-- State of a plain `NonTerminalNode` object: its own `parent` attribute,
the underlying list of slots, and the parent attributes of all child
objects. -/
structure NTState where
  parent : Option Ref
  children : List (Option Child)
  parentOf : Child → Option Ref

/-- `NonTerminalNode.__init__(parent, initial_children)`: stores the parent,
copies the children and sets each child's parent attribute. `pm0` is the
ambient parent attribute of every child object before construction. -/
def NonTerminalNode.init (pm0 : Child → Option Ref) (parent : Option Ref)
    (initialChildren : List (Option Child)) : NTState :=
  { parent := parent
    children := initialChildren
    parentOf := setParents pm0 initialChildren (some Ref.selfRef) }

/-- `NonTerminalNode.__setslice__(start, stop, seq)`: the base list replaces
the clamped range `[start:stop]` by `seq`; then
`new_child_count = min(stop - start - 1, len(seq))` children starting at
`start` of the updated list get their parent set. No parent of a removed
child is cleared anywhere in this method. -/
def NonTerminalNode.setslice (s : NTState) (start stop : ℤ)
    (seq : List (Option Child)) : NTState :=
  let a := sliceIdx s.children.length start
  let b := max a (sliceIdx s.children.length stop)
  let newChildren := s.children.take a ++ seq ++ s.children.drop b
  let newChildCount : ℤ := min (stop - start - 1) (seq.length : ℤ)
  let picked := listGetSlice newChildren start (start + newChildCount)
  { s with
    children := newChildren
    parentOf := setParents s.parentOf picked (some Ref.selfRef) }

/-- Python 2 default three-way comparison, restricted to the model's value
universe: `None` sorts before everything, values of distinct kinds sort by
kind, values of the same kind by their payload. -/
def pyLe : Option Child → Option Child → Bool
  | none, _ => true
  | some _, none => false
  | some (Child.leaf a), some (Child.leaf b) => a ≤ b
  | some (Child.leaf _), some (Child.node _) => true
  | some (Child.node _), some (Child.leaf _) => false
  | some (Child.node a), some (Child.node b) => a ≤ b

/-- Insertion step of the ascending sort. -/
def insertAsc (a : Option Child) : List (Option Child) → List (Option Child)
  | [] => [a]
  | b :: rest => if pyLe a b then a :: b :: rest else b :: insertAsc a rest

/-- `list.sort()` with default arguments: ascending sort by the default
comparison. -/
def listSortAsc : List (Option Child) → List (Option Child)
  | [] => []
  | a :: rest => insertAsc a (listSortAsc rest)

/-- `BiDirectionalLookupNonTerminalNode.sort(cmp, key, reverse)`: the source
body is `super().sort(cmp=None, key=None, reverse=False)` — it forwards
literal defaults, so the caller's `cmp`, `key` and `reverse` arguments are
discarded and the list is always sorted ascending by the default
comparison; afterwards every entry of `indices` is reassigned from the new
physical positions (including entries for `None` slots, as the source loop
does). -/
def BiDirectionalLookupNonTerminalNode.sort (s : BState)
    (_cmp : Option (Option Child → Option Child → Ordering))
    (_key : Option (Option Child → ℕ)) (_rev : Bool) : BState :=
  let sorted := listSortAsc s.children
  { s with children := sorted, indices := enumAssign s.indices sorted 0 }

/-- `BiDirectionalLookupNonTerminalNode.reverse()`: reverse the underlying
list, then reassign every entry of `indices` from the new positions. -/
def BiDirectionalLookupNonTerminalNode.reverse (s : BState) : BState :=
  let rev := s.children.reverse
  { s with children := rev, indices := enumAssign s.indices rev 0 }

/-- `BiDirectionalLookupNonTerminalNode.pop(index)`: `NonTerminalNode.pop`
pops the element (`IndexError` on an invalid index, before any mutation) and
clears its parent; then `del self.__indices[item]` raises `KeyError` when no
entry exists — with the physical removal and parent-clearing already in
effect. -/
def BiDirectionalLookupNonTerminalNode.pop (s : BState) (idx : ℤ) :
    BState × Option PyErr :=
  match pyNormIdx s.children.length idx with
  | none => (s, some PyErr.indexError)
  | some i =>
    let item := s.children.getD i none
    let s2 : BState :=
      { s with
        children := s.children.eraseIdx i
        parentOf := setParentFn s.parentOf item none }
    match dictGet s2.indices item with
    | none => (s2, some PyErr.keyError)
    | some _ => ({ s2 with indices := dictDelSafe s2.indices item }, none)

/-- `BiDirectionalLookupNonTerminalNode.__iadd__(iterable)`:
`NonTerminalNode.__iadd__` extends the underlying list and sets each new
child's parent; then each new child's dictionary entry is set to its
physical position `original_len + k`. The gap-filling placement policy of
`append` is not consulted. -/
def BiDirectionalLookupNonTerminalNode.iadd (s : BState)
    (iterable : List (Option Child)) : BState :=
  let originalLen := s.children.length
  { s with
    children := s.children ++ iterable
    parentOf := setParents s.parentOf iterable (some Ref.selfRef)
    indices := enumAssign s.indices iterable originalLen }

/-- `BiDirectionalLookupNonTerminalNode.insert(index, child)` for a
non-negative index: first `__update_dict_indices(index, len(self), 1)`
shifts the dictionary entry of every item physically at a position at or
after `index` up by one (`KeyError`, with the shifts performed so far kept,
should such an item have no entry); then `list.insert` places the child
(`NonTerminalNode` does not override `insert`, so no parent attribute is
touched); finally, when the child is not `None`,
`self.__indices[child] = index`. -/
def BiDirectionalLookupNonTerminalNode.insert (s : BState) (index : ℕ)
    (child : Option Child) : BState × Option PyErr :=
  match updateDictIndices s.indices s.children (index : ℤ)
    (s.children.length : ℤ) 1 with
  | (d, some e) => ({ s with indices := d }, some e)
  | (d, none) =>
    match child with
    | none =>
      ({ s with indices := d, children := pyListInsert s.children index child },
        none)
    | some c =>
      ({ s with
          children := pyListInsert s.children index child
          indices := dictSet d (some c) (index : ℤ) }, none)

/-- `NonTerminalNode.__add__` (inherited by the indexed class):
unconditionally raises `NotImplementedError`. -/
def BiDirectionalLookupNonTerminalNode.add (_s : BState)
    (_iterable : List (Option Child)) : Except PyErr BState :=
  Except.error PyErr.notImplementedError

/-- `BiDirectionalLookupNonTerminalNode.__mul__` (likewise `__imul__` and
`__rmul__`): unconditionally raises `NotImplementedError`. -/
def BiDirectionalLookupNonTerminalNode.mul (_s : BState) (_value : ℤ) :
    Except PyErr BState :=
  Except.error PyErr.notImplementedError

/-- A Python value for the deep-copy model: either a plain leaf value or a
`NonTerminalNode` with its `parent` attribute (only its presence matters
here: the parent is always `None` or another node object) and its
children. -/
inductive PyTreeVal where
  | leafVal (id : ℕ)
  | ntNode (hasParent : Bool) (children : List PyTreeVal)

/-- The error of the deep-copy model. -/
inductive DeepErr where
  | typeError
deriving DecidableEq

/-- The kind of value passed as the first argument of `__new__`. -/
inductive NewArg where
  | noneArg
  | nodeArg
  | typeArg

/-- `list.__new__(cls, ...)` as invoked by `NonTerminalNode.__deepcopy__`:
its first argument must be a type object; with `None` or a `Node` instance
— the only values `self.parent` can hold — it raises `TypeError`. -/
def listDunderNew (clsArg : NewArg) (newChildren : List PyTreeVal) :
    Except DeepErr PyTreeVal :=
  match clsArg with
  | NewArg.typeArg => Except.ok (PyTreeVal.ntNode false newChildren)
  | NewArg.noneArg => Except.error DeepErr.typeError
  | NewArg.nodeArg => Except.error DeepErr.typeError

mutual

/-- `copy.deepcopy` on a value of the model. On a plain value it copies; on
a `NonTerminalNode` it dispatches to `NonTerminalNode.__deepcopy__`, which
deep-copies the children and then evaluates
`self.__new__(self.parent, new_children)` — passing the parent attribute,
never a type object, as the first argument of `__new__`. -/
def NonTerminalNode.deepcopy : PyTreeVal → Except DeepErr PyTreeVal
  | PyTreeVal.leafVal i => Except.ok (PyTreeVal.leafVal i)
  | PyTreeVal.ntNode hasParent chs =>
    match NonTerminalNode.deepcopyChildren chs with
    | Except.error e => Except.error e
    | Except.ok newChildren =>
      listDunderNew (if hasParent then NewArg.nodeArg else NewArg.noneArg)
        newChildren

/-- The list comprehension `[deepcopy(child) for child in self]`, stopping
at the first raised exception. -/
def NonTerminalNode.deepcopyChildren :
    List PyTreeVal → Except DeepErr (List PyTreeVal)
  | [] => Except.ok []
  | t :: ts =>
    match NonTerminalNode.deepcopy t with
    | Except.error e => Except.error e
    | Except.ok t2 =>
      match NonTerminalNode.deepcopyChildren ts with
      | Except.error e => Except.error e
      | Except.ok ts2 => Except.ok (t2 :: ts2)

end

/-- The reverse map re-derived from the physical children, as the claims
word it: an occupied position `i` holding child `c` yields the entry
`c ↦ i`; `None` placeholder slots yield no entry. -/
def derivedLookup (children : List (Option Child)) (oc : Option Child) :
    Option ℤ :=
  match oc with
  | none => none
  | some c => (children.findIdx? (fun x => x = some c)).map (fun n => (n : ℤ))

/-- Concrete child objects for the scenario states. -/
def cA : Child := Child.node 0

def cB : Child := Child.node 1

def cC : Child := Child.node 2

def cD : Child := Child.node 3

/-- Ambient parent map with every child object unparented. -/
def pmNone : Child → Option Ref := fun _ => none

/-- The scenario container of C1: a `BiDirectionalLookupNonTerminalNode`
freshly constructed with children `[A, B, C]`. -/
def exS1 : BState := BiDirectionalLookupNonTerminalNode.init pmNone none
  [some cA, some cB, some cC]

/-- The scenario container of C3: a plain `NonTerminalNode` freshly
constructed with children `[A, B]`. -/
def exS3 : NTState := NonTerminalNode.init pmNone none [some cA, some cB]

/-- The scenario container of C5: two ordered plain-value children. -/
def exS5 : BState := BiDirectionalLookupNonTerminalNode.init pmNone none
  [some (Child.leaf 1), some (Child.leaf 2)]

/-- A reachable container whose slot `0` holds a placeholder with no
dictionary entry: `set(2, A)` on a fresh empty container yields children
`[None, None, A]` with an empty `indices` dictionary. -/
def exS9 : BState := BiDirectionalLookupNonTerminalNode.setitem
  (BiDirectionalLookupNonTerminalNode.init pmNone none []) 2 (some cA)

/-- The scenario container of C8: children `[A, C]`, a consistent state. -/
def exS8 : BState := BiDirectionalLookupNonTerminalNode.init pmNone none
  [some cA, some cC]

/-- The scenario container of C10: one child `A` at position `0`. -/
def exS10 : BState := BiDirectionalLookupNonTerminalNode.init pmNone none
  [some cA]

/-- The iterable appended in the C10 scenario. -/
def exL10 : List (Option Child) := [some cB, some cC]

/-- C1: on the container `[A, B, C]` (indices `{A:0, B:1, C:2}`),
`remove(B)` succeeds, the sequence becomes `[A, C]`, `B`'s parent is
cleared, `index(B)` fails with `KeyError`, and `A` keeps index `0` — but the
entry of `C` stays at `2` instead of being shifted down to `1`:
`__delitem__` shifts the slice starting at `index + 1` of the already
shortened list, missing the element that moved into the hole. -/
theorem c1_remove_scenario_eval :
    (BiDirectionalLookupNonTerminalNode.remove exS1 (some cB)).2 = none ∧
    (BiDirectionalLookupNonTerminalNode.remove exS1 (some cB)).1.children =
      [some cA, some cC] ∧
    (BiDirectionalLookupNonTerminalNode.remove exS1 (some cB)).1.parentOf cB =
      none ∧
    BiDirectionalLookupNonTerminalNode.index
      (BiDirectionalLookupNonTerminalNode.remove exS1 (some cB)).1 (some cB) =
      Except.error PyErr.keyError ∧
    dictGet (BiDirectionalLookupNonTerminalNode.remove exS1 (some cB)).1.indices
      (some cA) = some 0 ∧
    dictGet (BiDirectionalLookupNonTerminalNode.remove exS1 (some cB)).1.indices
      (some cC) = some 2 := by
  refine ⟨rfl, rfl, rfl, rfl, rfl, rfl⟩

/-- C2: the reverse-map invariant fails on the very first operation of a
fresh container: appending `A` to an empty
`BiDirectionalLookupNonTerminalNode` stores `A` at position `0` but leaves
`indices` empty (the out-of-bounds branch of `__setitem__` never records the
entry), while the map re-derived from the children has `A ↦ 0`. -/
theorem c2_append_invariant_eval :
    (BiDirectionalLookupNonTerminalNode.append
      (BiDirectionalLookupNonTerminalNode.init pmNone none []) (some cA)).children
      = [some cA] ∧
    dictGet (BiDirectionalLookupNonTerminalNode.append
      (BiDirectionalLookupNonTerminalNode.init pmNone none []) (some cA)).indices
      (some cA) = none ∧
    derivedLookup (BiDirectionalLookupNonTerminalNode.append
      (BiDirectionalLookupNonTerminalNode.init pmNone none []) (some cA)).children
      (some cA) = some 0 := by
  refine ⟨rfl, rfl, rfl⟩

/-- C4: `set(2, A)` on an empty container pads the sequence to
`[None, None, A]` but records no `indices` entry for `A` (the out-of-bounds
branch of `__setitem__` omits `self.__indices[child] = index`), whereas the
claim demands `indices[A] == 2`. -/
theorem c4_setitem_out_of_bounds_eval :
    (BiDirectionalLookupNonTerminalNode.setitem
      (BiDirectionalLookupNonTerminalNode.init pmNone none []) 2 (some cA)).children
      = [none, none, some cA] ∧
    dictGet (BiDirectionalLookupNonTerminalNode.setitem
      (BiDirectionalLookupNonTerminalNode.init pmNone none []) 2 (some cA)).indices
      (some cA) = none := by
  refine ⟨rfl, rfl⟩

/-- C3: `set_slice(0, 2, [C, D])` on the `NonTerminalNode` `[A, B]` replaces
the range as claimed, but the removed children `A` and `B` keep their parent
reference to the container (nothing in `__setslice__` clears them), and of
the children in the resulting range only
`min(stop - start - 1, len(seq)) = 1` of them — `C` — gets its parent set;
`D`'s parent attribute is left untouched. -/
theorem c3_setslice_parent_eval :
    (NonTerminalNode.setslice exS3 0 2 [some cC, some cD]).children =
      [some cC, some cD] ∧
    (NonTerminalNode.setslice exS3 0 2 [some cC, some cD]).parentOf cA =
      some Ref.selfRef ∧
    (NonTerminalNode.setslice exS3 0 2 [some cC, some cD]).parentOf cB =
      some Ref.selfRef ∧
    (NonTerminalNode.setslice exS3 0 2 [some cC, some cD]).parentOf cC =
      some Ref.selfRef ∧
    (NonTerminalNode.setslice exS3 0 2 [some cC, some cD]).parentOf cD =
      none := by
  refine ⟨rfl, rfl, rfl, rfl, rfl⟩

/-- C5: `sort` discards the caller's `cmp`, `key` and `reverse` arguments
(the source forwards literal defaults to `list.sort`), so requesting a
descending sort of the ascending container `[leaf 1, leaf 2]` leaves it
ascending; the subsequent recomputation of `indices` from the new physical
positions is correct. -/
theorem c5_sort_ignores_arguments :
    (∀ cmp key rev, BiDirectionalLookupNonTerminalNode.sort exS5 cmp key rev =
      BiDirectionalLookupNonTerminalNode.sort exS5 none none false) ∧
    (BiDirectionalLookupNonTerminalNode.sort exS5 none none true).children =
      [some (Child.leaf 1), some (Child.leaf 2)] ∧
    dictGet (BiDirectionalLookupNonTerminalNode.sort exS5 none none true).indices
      (some (Child.leaf 1)) = some 0 ∧
    dictGet (BiDirectionalLookupNonTerminalNode.sort exS5 none none true).indices
      (some (Child.leaf 2)) = some 1 := by
  refine ⟨fun _ _ _ => rfl, rfl, rfl, rfl⟩

/-- C6: deep-copying any `NonTerminalNode` — in particular any tree of depth
at least 2 — raises `TypeError` instead of succeeding: `__deepcopy__`
evaluates `self.__new__(self.parent, new_children)`, and the first argument
of `__new__` is the parent attribute (`None` or a `Node` instance), never
the required type object. -/
theorem c6_deepcopy_raises (hasParent : Bool) (chs : List PyTreeVal) :
    NonTerminalNode.deepcopy (PyTreeVal.ntNode hasParent chs) =
      Except.error DeepErr.typeError := by
  cases h : NonTerminalNode.deepcopyChildren chs with
  | error e =>
    cases e
    simp [NonTerminalNode.deepcopy, h]
  | ok l =>
    cases hasParent <;> simp [NonTerminalNode.deepcopy, h, listDunderNew]

theorem dictGet_dictSet_self (d : Dict) (k : Option Child) (v : ℤ) :
    dictGet (dictSet d k v) k = some v := by
  induction d with
  | nil => simp [dictSet, dictGet]
  | cons e rest ih =>
    obtain ⟨k2, v2⟩ := e
    by_cases h : k2 = k
    · simp [dictSet, dictGet, h]
    · simp [dictSet, dictGet, h, ih]

theorem dictGet_dictSet_ne (d : Dict) {k k2 : Option Child} (v : ℤ)
    (h : k2 ≠ k) : dictGet (dictSet d k v) k2 = dictGet d k2 := by
  induction d with
  | nil => simp [dictSet, dictGet, Ne.symm h]
  | cons e rest ih =>
    obtain ⟨k3, v3⟩ := e
    by_cases h2 : k3 = k
    · subst h2
      simp [dictSet, dictGet, Ne.symm h]
    · simp [dictSet, dictGet, h2, ih]

theorem enumAssign_not_mem (l : List (Option Child)) :
    ∀ (d : Dict) (n : ℕ) (x : Option Child), x ∉ l →
      dictGet (enumAssign d l n) x = dictGet d x := by
  induction l with
  | nil => intro d n x _; rfl
  | cons c rest ih =>
    intro d n x hx
    have h1 : x ∉ rest := fun h => hx (List.mem_cons_of_mem _ h)
    have h2 : x ≠ c := fun h => hx (h ▸ List.mem_cons_self c rest)
    show dictGet (enumAssign (dictSet d c (n : ℤ)) rest (n + 1)) x = dictGet d x
    rw [ih _ _ _ h1, dictGet_dictSet_ne _ _ h2]

theorem enumAssign_get (l : List (Option Child)) :
    ∀ (d : Dict) (n k : ℕ) (hk : k < l.length), l.Nodup →
      dictGet (enumAssign d l n) (l.get ⟨k, hk⟩) = some ((n + k : ℕ) : ℤ) := by
  induction l with
  | nil => intro d n k hk _; simp at hk
  | cons c rest ih =>
    intro d n k hk hN
    cases k with
    | zero =>
      have hcr : c ∉ rest := (List.nodup_cons.mp hN).1
      show dictGet (enumAssign (dictSet d c (n : ℤ)) rest (n + 1)) c =
        some ((n + 0 : ℕ) : ℤ)
      rw [enumAssign_not_mem rest _ _ _ hcr, dictGet_dictSet_self]
      norm_num
    | succ k2 =>
      have hk2 : k2 < rest.length := Nat.lt_of_succ_lt_succ hk
      have hrec := ih (dictSet d c (n : ℤ)) (n + 1) k2 hk2
        (List.nodup_cons.mp hN).2
      have harith : (n + 1) + k2 = n + (k2 + 1) := by omega
      rw [harith] at hrec
      exact hrec

theorem setParentFn_node (pm : Child → Option Ref) (i : ℕ) (p : Option Ref) :
    setParentFn pm (some (Child.node i)) p (Child.node i) = p := by
  simp [setParentFn]

theorem setParentFn_ne (pm : Child → Option Ref) (c : Option Child)
    (p : Option Ref) (x : Child) (hx : c ≠ some x) :
    setParentFn pm c p x = pm x := by
  cases c with
  | none => rfl
  | some ch =>
    cases ch with
    | node i =>
      have hne : x ≠ Child.node i := fun h => hx (by rw [h])
      simp [setParentFn, hne]
    | leaf i => rfl

theorem setParents_not_mem (l : List (Option Child)) :
    ∀ (pm : Child → Option Ref) (p : Option Ref) (x : Child), some x ∉ l →
      setParents pm l p x = pm x := by
  induction l with
  | nil => intro pm p x _; rfl
  | cons c rest ih =>
    intro pm p x hx
    have h1 : some x ∉ rest := fun h => hx (List.mem_cons_of_mem _ h)
    have h2 : c ≠ some x := fun h => hx (h ▸ List.mem_cons_self c rest)
    show setParents (setParentFn pm c p) rest p x = pm x
    rw [ih _ _ _ h1, setParentFn_ne _ _ _ _ h2]

theorem setParents_mem (l : List (Option Child)) :
    ∀ (pm : Child → Option Ref) (p : Option Ref) (i : ℕ),
      some (Child.node i) ∈ l → setParents pm l p (Child.node i) = p := by
  induction l with
  | nil => intro pm p i h; simp at h
  | cons c rest ih =>
    intro pm p i h
    by_cases hr : some (Child.node i) ∈ rest
    · exact ih _ _ _ hr
    · have hc : c = some (Child.node i) := by
        rcases List.mem_cons.mp h with h1 | h2
        · exact h1.symm
        · exact absurd h2 hr
      show setParents (setParentFn pm c p) rest p (Child.node i) = p
      rw [setParents_not_mem rest _ _ _ hr, hc, setParentFn_node]

/-- C7: on a container whose positions `0`, `2`, `4` are occupied, whose
positions `1` and `3` hold `None` placeholders, and whose
`last_automatically_added_index` is `-1`, `append(x)` stores `x` at
position `1` — the first free slot scanning forward from
`last_auto_index + 1` — records `indices[x] = 1`, and advances the
auto-index to `1`. Holds for every dictionary content and every ambient
parent map. -/
theorem c7_append_gap_filling (a b c x : Child) (d : Dict)
    (pm : Child → Option Ref) (p : Option Ref) :
    (BiDirectionalLookupNonTerminalNode.append
      { parent := p
        children := [some a, none, some b, none, some c]
        indices := d
        lastAutomaticallyAddedIndex := -1
        parentOf := pm } (some x)).children
      = [some a, some x, some b, none, some c] ∧
    dictGet (BiDirectionalLookupNonTerminalNode.append
      { parent := p
        children := [some a, none, some b, none, some c]
        indices := d
        lastAutomaticallyAddedIndex := -1
        parentOf := pm } (some x)).indices (some x) = some 1 ∧
    (BiDirectionalLookupNonTerminalNode.append
      { parent := p
        children := [some a, none, some b, none, some c]
        indices := d
        lastAutomaticallyAddedIndex := -1
        parentOf := pm } (some x)).lastAutomaticallyAddedIndex = 1 := by
  refine ⟨rfl, ?_, rfl⟩
  show dictGet (dictSet (dictDelSafe d none) (some x) 1) (some x) = some 1
  exact dictGet_dictSet_self _ _ _

/-- C9 counterexample: on the reachable container with children
`[None, None, A]` and empty `indices`, `pop(0)` fails with `KeyError`, yet
the state is not the same as before the call: the child sequence has
already lost its first slot. This refutes the claim that a failed `pop`
leaves the container unmodified. -/
theorem c9_pop_counterexample :
    (BiDirectionalLookupNonTerminalNode.pop exS9 0).2 = some PyErr.keyError ∧
    (BiDirectionalLookupNonTerminalNode.pop exS9 0).1.children ≠
      exS9.children := by
  exact ⟨rfl, by decide⟩

/-- C9 amended: when `pop(index)` fails with `KeyError` because the slot at
`index` has no entry in `indices`, the `indices` mapping is unchanged, but
the physical removal has already happened — the slot is gone from the child
sequence and the removed element's parent attribute has been cleared (a
no-op for a placeholder). -/
theorem c9_pop_failure_amended (s : BState) (idx : ℤ) (i : ℕ)
    (hnorm : pyNormIdx s.children.length idx = some i)
    (habsent : dictGet s.indices (s.children.getD i none) = none) :
    (BiDirectionalLookupNonTerminalNode.pop s idx).2 = some PyErr.keyError ∧
    (BiDirectionalLookupNonTerminalNode.pop s idx).1.indices = s.indices ∧
    (BiDirectionalLookupNonTerminalNode.pop s idx).1.children =
      s.children.eraseIdx i ∧
    (BiDirectionalLookupNonTerminalNode.pop s idx).1.parentOf =
      setParentFn s.parentOf (s.children.getD i none) none := by
  unfold BiDirectionalLookupNonTerminalNode.pop
  rw [hnorm]
  simp only [habsent]
  exact ⟨trivial, trivial, trivial, trivial⟩

/-- Witness for the amended C9 statement at the concrete container
`[None, None, A]` with empty `indices`. -/
theorem c9_pop_failure_amended_witness :
    (BiDirectionalLookupNonTerminalNode.pop exS9 0).2 = some PyErr.keyError ∧
    (BiDirectionalLookupNonTerminalNode.pop exS9 0).1.indices = exS9.indices ∧
    (BiDirectionalLookupNonTerminalNode.pop exS9 0).1.children =
      exS9.children.eraseIdx 0 ∧
    (BiDirectionalLookupNonTerminalNode.pop exS9 0).1.parentOf =
      setParentFn exS9.parentOf (exS9.children.getD 0 none) none := by
  exact c9_pop_failure_amended exS9 0 0 (by decide) (by decide)

/-- C10: `+=` with an iterable of fresh, pairwise distinct children appends
them at the physical end (the `k`-th new child lands at position `n + k`),
sets each parent-capable new child's parent to the container, and records
`indices[child] = n + k` for each — bypassing the gap-filling policy of
`append` — while `+` and `*` always fail with `NotImplementedError`. -/
theorem c10_iadd_spec (s : BState) (l : List (Option Child)) (hN : l.Nodup) :
    (BiDirectionalLookupNonTerminalNode.iadd s l).children = s.children ++ l ∧
    (∀ (k : ℕ) (hk : k < l.length),
      dictGet (BiDirectionalLookupNonTerminalNode.iadd s l).indices
        (l.get ⟨k, hk⟩) = some ((s.children.length + k : ℕ) : ℤ)) ∧
    (∀ i : ℕ, some (Child.node i) ∈ l →
      (BiDirectionalLookupNonTerminalNode.iadd s l).parentOf (Child.node i) =
        some Ref.selfRef) ∧
    (∀ l2, BiDirectionalLookupNonTerminalNode.add s l2 =
      Except.error PyErr.notImplementedError) ∧
    (∀ v : ℤ, BiDirectionalLookupNonTerminalNode.mul s v =
      Except.error PyErr.notImplementedError) := by
  refine ⟨rfl, ?_, ?_, fun _ => rfl, fun _ => rfl⟩
  · intro k hk
    exact enumAssign_get l s.indices s.children.length k hk hN
  · intro i hi
    exact setParents_mem l s.parentOf (some Ref.selfRef) i hi

theorem sliceIdx_natCast (n i : ℕ) (h : i ≤ n) : sliceIdx n (i : ℤ) = i := by
  unfold sliceIdx
  rw [if_neg (by omega)]
  omega

theorem listGetSlice_idx_len (l : List (Option Child)) (i : ℕ)
    (hi : i ≤ l.length) :
    listGetSlice l (i : ℤ) (l.length : ℤ) = l.drop i := by
  unfold listGetSlice
  rw [sliceIdx_natCast _ _ hi, sliceIdx_natCast _ _ le_rfl,
    Nat.max_eq_right hi]
  exact List.take_of_length_le (by rw [List.length_drop])

theorem dictGet_mem (d : Dict) (k : Option Child) (v : ℤ)
    (h : dictGet d k = some v) : (k, v) ∈ d := by
  induction d with
  | nil => simp [dictGet] at h
  | cons e rest ih =>
    obtain ⟨k2, v2⟩ := e
    by_cases h2 : k2 = k
    · subst h2
      have hv : v2 = v := by
        simpa [dictGet] using h
      subst hv
      exact List.mem_cons_self _ _
    · simp only [dictGet, if_neg h2] at h
      exact List.mem_cons_of_mem _ (ih h)

theorem BiDirectionalLookupNonTerminalNode.updLoop_spec (its : List (Option Child)) :
    ∀ (d : Dict) (shift : ℤ), (∀ x ∈ its, dictGet d x ≠ none) → its.Nodup →
      (BiDirectionalLookupNonTerminalNode.updLoop d its shift).2 = none ∧
      ∀ y, dictGet (BiDirectionalLookupNonTerminalNode.updLoop d its shift).1 y =
        if y ∈ its then Option.map (fun v => v + shift) (dictGet d y)
        else dictGet d y := by
  induction its with
  | nil =>
    intro d shift _ _
    exact ⟨rfl, fun y => by simp [BiDirectionalLookupNonTerminalNode.updLoop]⟩
  | cons item rest ih =>
    intro d shift hpres hN
    obtain ⟨v, hv⟩ : ∃ v, dictGet d item = some v := by
      cases h : dictGet d item with
      | none => exact absurd h (hpres item (List.mem_cons_self _ _))
      | some v => exact ⟨v, rfl⟩
    have hnotmem : item ∉ rest := (List.nodup_cons.mp hN).1
    have hpres2 : ∀ x ∈ rest, dictGet (dictSet d item (v + shift)) x ≠ none := by
      intro x hx
      have hne : x ≠ item := fun h => hnotmem (h ▸ hx)
      rw [dictGet_dictSet_ne _ _ hne]
      exact hpres x (List.mem_cons_of_mem _ hx)
    have hrec := ih (dictSet d item (v + shift)) shift hpres2
      (List.nodup_cons.mp hN).2
    have hstep : BiDirectionalLookupNonTerminalNode.updLoop d (item :: rest) shift =
        BiDirectionalLookupNonTerminalNode.updLoop (dictSet d item (v + shift)) rest shift := by
      simp [BiDirectionalLookupNonTerminalNode.updLoop, hv]
    rw [hstep]
    refine ⟨hrec.1, ?_⟩
    intro y
    rw [hrec.2 y]
    by_cases hy1 : y = item
    · subst hy1
      rw [if_neg hnotmem, if_pos (List.mem_cons_self _ _),
        dictGet_dictSet_self, hv]
      rfl
    · by_cases hy2 : y ∈ rest
      · rw [if_pos hy2, if_pos (List.mem_cons_of_mem _ hy2),
          dictGet_dictSet_ne _ _ hy1]
      · have hy3 : y ∉ item :: rest := by
          simp [List.mem_cons, hy1, hy2]
        rw [if_neg hy2, if_neg hy3, dictGet_dictSet_ne _ _ hy1]

theorem insert_eq_of_ok (s : BState) (index : ℕ) (c : Child) (d1 : Dict)
    (h : BiDirectionalLookupNonTerminalNode.updateDictIndices s.indices s.children (index : ℤ)
      (s.children.length : ℤ) 1 = (d1, none)) :
    BiDirectionalLookupNonTerminalNode.insert s index (some c) =
      ({ s with
          children := pyListInsert s.children index (some c)
          indices := dictSet d1 (some c) (index : ℤ) }, none) := by
  unfold BiDirectionalLookupNonTerminalNode.insert
  rw [h]

/-- C8: on a consistent container (pairwise distinct children, no `None`
placeholder, dictionary entries exactly matching the physical positions),
`insert(index, child)` with a fresh child and `index ≤ len` succeeds: every
pre-existing entry at a position at or after `index` is shifted up by one,
every entry at a position before `index` is untouched, the child lands
physically at `index` and its entry records `index`. In particular
`insert(1, D)` on `[A, C]` yields `[A, D, C]` with
`indices == {A:0, D:1, C:2}` (see the witness). -/
theorem c8_insert_spec (s : BState) (index : ℕ) (c : Child)
    (hNodup : s.children.Nodup)
    (_hNoNone : (none : Option Child) ∉ s.children)
    (hEntries : ∀ e ∈ s.indices, 0 ≤ e.2 ∧ s.children[e.2.toNat]? = some e.1)
    (hComplete : ∀ i : Fin s.children.length,
      dictGet s.indices (s.children.get i) = some ((i : ℕ) : ℤ))
    (hIdx : index ≤ s.children.length)
    (hNew : some c ∉ s.children) :
    (BiDirectionalLookupNonTerminalNode.insert s index (some c)).2 = none ∧
    (BiDirectionalLookupNonTerminalNode.insert s index (some c)).1.children =
      s.children.take index ++ some c :: s.children.drop index ∧
    dictGet (BiDirectionalLookupNonTerminalNode.insert s index
      (some c)).1.indices (some c) = some (index : ℤ) ∧
    ∀ (oc : Option Child) (k : ℤ), dictGet s.indices oc = some k →
      (k < (index : ℤ) →
        dictGet (BiDirectionalLookupNonTerminalNode.insert s index
          (some c)).1.indices oc = some k) ∧
      ((index : ℤ) ≤ k →
        dictGet (BiDirectionalLookupNonTerminalNode.insert s index
          (some c)).1.indices oc = some (k + 1)) := by
  have hits : listGetSlice s.children (index : ℤ) (s.children.length : ℤ) =
      s.children.drop index := listGetSlice_idx_len s.children index hIdx
  have hpres : ∀ x ∈ s.children.drop index, dictGet s.indices x ≠ none := by
    intro x hx
    obtain ⟨j, hj⟩ := List.mem_iff_getElem?.mp hx
    rw [List.getElem?_drop] at hj
    have hlt : index + j < s.children.length := by
      by_contra hge
      rw [List.getElem?_eq_none (by omega)] at hj
      exact Option.noConfusion hj
    have hxget : s.children.get ⟨index + j, hlt⟩ = x := by
      rw [List.getElem?_eq_getElem hlt] at hj
      simpa [List.get_eq_getElem] using hj
    rw [← hxget, hComplete ⟨index + j, hlt⟩]
    exact fun hcon => Option.noConfusion hcon
  have hND : (s.children.drop index).Nodup :=
    hNodup.sublist (List.drop_sublist index s.children)
  have hloop := BiDirectionalLookupNonTerminalNode.updLoop_spec (s.children.drop index) s.indices 1 hpres hND
  have hud : BiDirectionalLookupNonTerminalNode.updateDictIndices s.indices s.children (index : ℤ)
      (s.children.length : ℤ) 1 =
      ((BiDirectionalLookupNonTerminalNode.updLoop s.indices (s.children.drop index) 1).1, none) := by
    show BiDirectionalLookupNonTerminalNode.updLoop s.indices
      (listGetSlice s.children (index : ℤ) (s.children.length : ℤ)) 1 = _
    rw [hits, ← hloop.1]
  have hins := insert_eq_of_ok s index c
    (BiDirectionalLookupNonTerminalNode.updLoop s.indices (s.children.drop index) 1).1 hud
  rw [hins]
  refine ⟨rfl, rfl, dictGet_dictSet_self _ _ _, ?_⟩
  intro oc k h
  have hment := dictGet_mem s.indices oc k h
  obtain ⟨hk0, hget⟩ := hEntries (oc, k) hment
  have hlt1 : k.toNat < s.children.length := by
    by_contra hge
    rw [List.getElem?_eq_none (by omega)] at hget
    exact Option.noConfusion hget
  have hocne : oc ≠ some c := by
    intro he
    exact hNew (he ▸ List.mem_iff_getElem?.mpr ⟨k.toNat, hget⟩)
  constructor
  · intro hklt
    have hnotmem : oc ∉ s.children.drop index := by
      intro hmem
      obtain ⟨j, hj⟩ := List.mem_iff_getElem?.mp hmem
      rw [List.getElem?_drop] at hj
      have heq := List.getElem?_inj hlt1 hNodup (hget.trans hj.symm)
      omega
    show dictGet (dictSet (BiDirectionalLookupNonTerminalNode.updLoop s.indices (s.children.drop index) 1).1
      (some c) (index : ℤ)) oc = some k
    rw [dictGet_dictSet_ne _ _ hocne, hloop.2 oc, if_neg hnotmem, h]
  · intro hkge
    have hmem : oc ∈ s.children.drop index := by
      apply List.mem_iff_getElem?.mpr
      refine ⟨k.toNat - index, ?_⟩
      rw [List.getElem?_drop]
      have harith : index + (k.toNat - index) = k.toNat := by omega
      rw [harith]
      exact hget
    show dictGet (dictSet (BiDirectionalLookupNonTerminalNode.updLoop s.indices (s.children.drop index) 1).1
      (some c) (index : ℤ)) oc = some (k + 1)
    rw [dictGet_dictSet_ne _ _ hocne, hloop.2 oc, if_pos hmem, h]
    rfl

/-- Witness for C8: `insert(1, D)` on the freshly constructed container
`[A, C]` yields the sequence `[A, D, C]` with `indices == {A:0, D:1, C:2}`
and no error. -/
theorem c8_insert_spec_witness :
    (BiDirectionalLookupNonTerminalNode.insert exS8 1 (some cD)).2 = none ∧
    (BiDirectionalLookupNonTerminalNode.insert exS8 1 (some cD)).1.children =
      [some cA, some cD, some cC] ∧
    dictGet (BiDirectionalLookupNonTerminalNode.insert exS8 1
      (some cD)).1.indices (some cA) = some 0 ∧
    dictGet (BiDirectionalLookupNonTerminalNode.insert exS8 1
      (some cD)).1.indices (some cD) = some 1 ∧
    dictGet (BiDirectionalLookupNonTerminalNode.insert exS8 1
      (some cD)).1.indices (some cC) = some 2 := by
  have h := c8_insert_spec exS8 1 cD (by decide) (by decide) (by decide)
    (by decide) (by decide) (by decide)
  refine ⟨h.1, h.2.1, ?_, h.2.2.1, ?_⟩
  · exact (h.2.2.2 (some cA) 0 rfl).1 (by decide)
  · exact (h.2.2.2 (some cC) 1 rfl).2 (by decide)

/-- Witness for C10 at the container `[A]` extended in place with
`[B, C]`. -/
theorem c10_iadd_spec_witness :
    (BiDirectionalLookupNonTerminalNode.iadd exS10 exL10).children =
      [some cA, some cB, some cC] ∧
    dictGet (BiDirectionalLookupNonTerminalNode.iadd exS10 exL10).indices
      (some cB) = some 1 ∧
    dictGet (BiDirectionalLookupNonTerminalNode.iadd exS10 exL10).indices
      (some cC) = some 2 ∧
    (BiDirectionalLookupNonTerminalNode.iadd exS10 exL10).parentOf cB =
      some Ref.selfRef ∧
    BiDirectionalLookupNonTerminalNode.add exS10 exL10 =
      Except.error PyErr.notImplementedError := by
  have h := c10_iadd_spec exS10 exL10 (by decide)
  refine ⟨h.1, ?_, ?_, ?_, h.2.2.2.1 exL10⟩
  · exact h.2.1 0 (by decide)
  · exact h.2.1 1 (by decide)
  · exact h.2.2.1 1 (by decide)

end PyTree
